import Mathlib

/-!
Verification of the license-plate log summarizer (`scripts/summarize_platesv3.py`,
with `scripts/summarize_platesv2.py` as the non-grouping variant).

Modelling conventions:
* Python floats are modelled as exact rationals (`ℚ`); the decimal literals in
  the logs and the arithmetic that the claims exercise are exact at this scale.
* Python's `round(x, 2)` (round-half-to-even) is `pyRound2`.
* `difflib.SequenceMatcher(None, a, b).ratio()` is modelled by `matchTotal`
  (total size of matching blocks, found by recursively taking the longest
  common contiguous run, ties broken towards the lexicographically least
  pair of start indices, exactly as difflib's `find_longest_match` does for
  strings below the autojunk length of 200; the autojunk heuristic, which only
  changes behaviour when the second argument has length at least 200, is not
  modelled).  `calculate_similarity` is `ratio * 100`.
* Reading the log file is modelled by `LogSource`: the file's lines, or a
  file-not-found error, or another read error (carrying whatever lines were
  read before the failure; the code discards them and returns an empty table).
* `pandas.DataFrame.sort_values(col, ascending=False)` argsorts ascending
  (numpy quicksort, which is a stable insertion sort on the small arrays at
  stake here) and then reverses the indexer, so ties come out in reverse
  input order; `pandasSortDesc` models this as the reverse of a stable
  ascending insertion sort.
-/

-- Batteries marks the `Rat` field operations `@[irreducible]`, which blocks
-- `decide` from evaluating concrete rational arithmetic; restore the default
-- reducibility locally so concrete runs of the pipeline can be checked.
set_option allowUnsafeReducibility true
attribute [semireducible] Rat.add Rat.mul Rat.inv Rat.div Rat.sub Rat.neg Rat.ofScientific

/-- Python whitespace characters relevant to `str.strip` and `\s` (ASCII). -/
def isPySpace (c : Char) : Bool :=
  c = ' ' || c = '\t' || c = '\n' || c = '\x0d' || c = '\x0b' || c = '\x0c'

/-- `str.strip()` on a list of characters. -/
def pyStrip (s : List Char) : List Char :=
  ((s.dropWhile isPySpace).reverse.dropWhile isPySpace).reverse

/-- Characters matched by the `[A-Z0-9]` class of the plate regex. -/
def isPlateChar (c : Char) : Bool :=
  ('A' ≤ c && c ≤ 'Z') || ('0' ≤ c && c ≤ '9')

/-- Value of a digit character. -/
def digitVal (c : Char) : Nat := c.toNat - '0'.toNat

/-- Numeric value of a digit run (`int` of the captured group). -/
def digitsToNat (ds : List Char) : Nat :=
  ds.foldl (fun acc c => acc * 10 + digitVal c) 0

/-- Value of the fractional digit run: `digits / 10^len`. -/
def fracToQ (ds : List Char) : ℚ :=
  (digitsToNat ds : ℚ) / (10 ^ ds.length : ℚ)

/-- Match a literal character sequence at the head, returning the rest. -/
def dropLit : List Char → List Char → Option (List Char)
  | [], s => some s
  | _ :: _, [] => none
  | p :: ps, c :: cs => if c = p then dropLit ps cs else none

/-- `re.match(r'Frame:\s*(\d+)', line)`: anchored at the start, literal
`Frame:`, optional whitespace, then at least one digit (greedy; `\s` and `\d`
are disjoint so maximal munch is exact). Returns the captured frame number. -/
def frameMatch (s : List Char) : Option Nat :=
  match dropLit "Frame:".data s with
  | none => none
  | some rest =>
    let ds := (rest.dropWhile isPySpace).takeWhile Char.isDigit
    if ds.isEmpty then none else some (digitsToNat ds)

/-- `re.match(r'\s*-\s*([A-Z0-9]+)\s+confidence:\s*(\d+\.?\d*)', line)`:
leading whitespace, a dash, whitespace, the plate text (at least one of
`[A-Z0-9]`, greedy), at least one whitespace, the literal `confidence:`,
optional whitespace, an integer digit run, an optional dot and fractional
digit run.  All adjacent greedy classes are disjoint, so maximal munch is
exact.  Returns the plate text and the confidence (`float` of the capture,
modelled exactly in `ℚ`). -/
def plateMatch (s : List Char) : Option (String × ℚ) :=
  let s1 := s.dropWhile isPySpace
  match s1 with
  | '-' :: s2 =>
    let s3 := s2.dropWhile isPySpace
    let plate := s3.takeWhile isPlateChar
    if plate.isEmpty then none else
    let s4 := s3.drop plate.length
    match s4 with
    | c :: _ =>
      if isPySpace c then
        match dropLit "confidence:".data (s4.dropWhile isPySpace) with
        | none => none
        | some s5 =>
          let s6 := s5.dropWhile isPySpace
          let ds := s6.takeWhile Char.isDigit
          if ds.isEmpty then none else
          let s7 := s6.drop ds.length
          let fr := match s7 with
            | '.' :: s8 => s8.takeWhile Char.isDigit
            | _ => []
          some (⟨plate⟩, (digitsToNat ds : ℚ) + fracToQ fr)
      else none
    | [] => none
  | _ => none

/-- Per-plate aggregated data: `{'confidences': [...], 'frames': [...]}`. -/
structure PlateRec where
  confidences : List ℚ
  frames : List Nat
deriving DecidableEq

/-- Append one event to the record keyed by `k` in the insertion-ordered
association list (Python `defaultdict` keyed by the exact plate text:
existing keys keep their position, a new key is appended at the end). -/
def appendEvent : List (String × PlateRec) → String → ℚ → Nat → List (String × PlateRec)
  | [], k, c, f => [(k, ⟨[c], [f]⟩)]
  | (k', r) :: rest, k, c, f =>
    if k' = k then (k', ⟨r.confidences ++ [c], r.frames ++ [f]⟩) :: rest
    else (k', r) :: appendEvent rest k c f

/-- The parsing loop of `parse_license_plate_log`: strip each line, try the
frame regex first (updating the current frame), otherwise try the plate regex
and record an event only when a current frame has been set. -/
def parseLines : List String → Option Nat → List (String × PlateRec) → List (String × PlateRec)
  | [], _, pd => pd
  | line :: rest, cur, pd =>
    let s := pyStrip line.data
    match frameMatch s with
    | some n => parseLines rest (some n) pd
    | none =>
      match plateMatch s, cur with
      | some (plate, conf), some f => parseLines rest cur (appendEvent pd plate conf f)
      | _, _ => parseLines rest cur pd

/-- The aggregated plate data produced from a list of log lines. -/
def aggregate (lines : List String) : List (String × PlateRec) :=
  parseLines lines none []

/-- Length of the common run at the heads of two character lists. -/
def runLen : List Char → List Char → Nat
  | x :: xs, y :: ys => if x = y then runLen xs ys + 1 else 0
  | _, _ => 0

/-- Length of the common run of `a` and `b` starting at positions `i`, `j`. -/
def matchLenAt (a b : List Char) (i j : Nat) : Nat :=
  runLen (a.drop i) (b.drop j)

/-- All index pairs `(i, j)`, `i < la`, `j < lb`, in lexicographic order —
the scan order of difflib's `find_longest_match` dynamic programme. -/
def idxPairs (la lb : Nat) : List (Nat × Nat) :=
  (List.range la).foldr (fun i acc => (List.range lb).map (fun j => (i, j)) ++ acc) []

/-- The length of the longest common contiguous run of `a` and `b`. -/
def bestSize (a b : List Char) : Nat :=
  ((idxPairs a.length b.length).map (fun p => matchLenAt a b p.1 p.2)).foldr max 0

/-- difflib's `find_longest_match` on junk-free inputs: the lexicographically
least `(i, j)` starting a run of the maximal length. -/
def bestPair (a b : List Char) : Option (Nat × Nat) :=
  (idxPairs a.length b.length).find? (fun p => bestSize a b ≤ matchLenAt a b p.1 p.2)

/-- Total size of difflib's matching blocks, by the recursion of
`get_matching_blocks`: take the longest match, recurse left and right of it.
Structured with explicit fuel so the kernel can evaluate it; `a.length +
b.length` units always suffice (`matchTotalF_fuel`). -/
def matchTotalF : Nat → List Char → List Char → Nat
  | 0, _, _ => 0
  | fuel + 1, a, b =>
    match bestPair a b with
    | none => 0
    | some (i, j) =>
      let k := matchLenAt a b i j
      if k = 0 then 0
      else matchTotalF fuel (a.take i) (b.take j) + k
        + matchTotalF fuel (a.drop (i + k)) (b.drop (j + k))

/-- Total size of difflib's matching blocks (the `M` of `ratio = 2M/T`). -/
def matchTotal (a b : List Char) : Nat :=
  matchTotalF (a.length + b.length) a b

/-- `calculate_similarity` (summarize_platesv3.py line 6):
`SequenceMatcher(None, plate1, plate2).ratio() * 100`, i.e. `200·M / T`
with `T` the total length (and `1.0 * 100` when both strings are empty). -/
def calculate_similarity (plate1 plate2 : String) : ℚ :=
  let a := plate1.data
  let b := plate2.data
  if a.length + b.length = 0 then 100
  else 200 * (matchTotal a b : ℚ) / ((a.length + b.length : Nat) : ℚ)

/-- Look up the record of a key in the plate data (`plate_data[k]`; every key
used by the grouping loop is present, so the default is never reached). -/
def lookupRec (pd : List (String × PlateRec)) (k : String) : PlateRec :=
  match pd with
  | [] => ⟨[], []⟩
  | (k', r) :: rest => if k' = k then r else lookupRec rest k

/-- Mean of the record's own confidences
(`sum(plate_data[p]['confidences']) / len(...)`). -/
def avgConf (pd : List (String × PlateRec)) (p : String) : ℚ :=
  ((lookupRec pd p).confidences.foldl (· + ·) 0) / ((lookupRec pd p).confidences.length : ℚ)

/-- The inner scan of `group_similar_plates` (lines 36–45): walk the texts
after the seed in discovery order, skip consumed ones, and join a candidate
(marking it consumed) exactly when `calculate_similarity(seed, candidate) >=
threshold`.  Returns the joined candidates in join order and the updated
consumed set. -/
def scanCandidates (θ : ℚ) (main : String) :
    List String → List String → List String × List String
  | [], used => ([], used)
  | p :: ps, used =>
    if p ∈ used then scanCandidates θ main ps used
    else if θ ≤ calculate_similarity main p then
      let r := scanCandidates θ main ps (p :: used)
      (p :: r.1, r.2)
    else scanCandidates θ main ps used

/-- The representative choice of `group_similar_plates` (lines 49–57): fold
over the members after the seed, replacing the current best exactly when the
candidate's own mean confidence is strictly higher (so ties keep the
first-encountered maximum). -/
def bestPlate (pd : List (String × PlateRec)) (main : String) (tl : List String) : String :=
  tl.foldl (fun best p => if avgConf pd best < avgConf pd p then p else best) main

/-- One entry of the list returned by `group_similar_plates`. -/
structure PlateGroup where
  main_plate : String
  similar_plates : List String
  all_confidences : List ℚ
  all_frames : List Nat
deriving DecidableEq

/-- The outer loop of `group_similar_plates` (lines 25–66): for each text in
discovery order that is not yet consumed, scan the later texts for similar
ones, combine the records of the seed and the joined texts in join order,
pick the representative, and list the other members (in discovery order) as
`similar_plates`. -/
def groupLoop (θ : ℚ) (pd : List (String × PlateRec)) :
    List String → List String → List PlateGroup
  | [], _ => []
  | main :: rest, used =>
    if main ∈ used then groupLoop θ pd rest used
    else
      let s := scanCandidates θ main rest used
      let members := main :: s.1
      let best := bestPlate pd main s.1
      { main_plate := best,
        similar_plates := members.filter (fun p => p ≠ best),
        all_confidences :=
          (lookupRec pd main).confidences
            ++ (s.1.map (fun p => (lookupRec pd p).confidences)).foldr (· ++ ·) [],
        all_frames :=
          (lookupRec pd main).frames
            ++ (s.1.map (fun p => (lookupRec pd p).frames)).foldr (· ++ ·) [] }
        :: groupLoop θ pd rest (main :: s.2)

/-- `group_similar_plates` (summarize_platesv3.py lines 10–68). -/
def group_similar_plates (pd : List (String × PlateRec)) (θ : ℚ) : List PlateGroup :=
  groupLoop θ pd (pd.map Prod.fst) []

/-- Python's `round(x, 2)`: round `100·x` half-to-even, divide by 100. -/
def pyRound2 (x : ℚ) : ℚ :=
  let y := x * 100
  let f := ⌊y⌋
  let r := y - (f : ℚ)
  (if r < 1 / 2 then (f : ℚ)
   else if 1 / 2 < r then (f : ℚ) + 1
   else if f % 2 = 0 then (f : ℚ) else (f : ℚ) + 1) / 100

/-- Python `min` of a nonempty list (the 0 default is never reached: row
building guards on nonemptiness). -/
def listMin : List Nat → Nat
  | [] => 0
  | x :: xs => xs.foldl Nat.min x

/-- Python `max` of a nonempty list. -/
def listMax : List Nat → Nat
  | [] => 0
  | x :: xs => xs.foldl Nat.max x

/-- A summary row of the grouping variant (one per cluster). -/
structure Row where
  plate_found : String
  similar_plates : String
  confidence_level : ℚ
  first_frame : Nat
  last_frame : Nat
  total_detections : Nat
deriving DecidableEq

/-- Row construction of `parse_license_plate_log` (lines 120–131): one row
per group with a nonempty frame list (`if group['all_frames']`), with the
`similar_plates` column comma-space-joined. -/
def buildResults (groups : List PlateGroup) : List Row :=
  groups.filterMap (fun g =>
    if g.all_frames.isEmpty then none
    else some
      { plate_found := g.main_plate,
        similar_plates :=
          if g.similar_plates.isEmpty then ""
          else String.intercalate ", " g.similar_plates,
        confidence_level :=
          pyRound2 ((g.all_confidences.foldl (· + ·) 0) / (g.all_confidences.length : ℚ)),
        first_frame := listMin g.all_frames,
        last_frame := listMax g.all_frames,
        total_detections := g.all_frames.length })

/-- Stable ascending insertion by a rational key. -/
def insertByKey (key : α → ℚ) (x : α) : List α → List α
  | [] => [x]
  | y :: ys => if key x ≤ key y then x :: y :: ys else y :: insertByKey key x ys

/-- Stable ascending insertion sort by a rational key (what numpy's argsort
performs on the small arrays at stake). -/
def sortAscByKey (key : α → ℚ) : List α → List α
  | [] => []
  | x :: xs => insertByKey key x (sortAscByKey key xs)

/-- `df.sort_values(col, ascending=False)`: pandas argsorts ascending and
reverses the indexer, so the result is the reverse of a stable ascending
sort (ties come out in reverse input order). -/
def pandasSortDesc (key : α → ℚ) (l : List α) : List α :=
  (sortAscByKey key l).reverse

/-- The input source: the log file's lines, a missing file, or another read
error (carrying the lines delivered before the failure, which the code
discards). -/
inductive LogSource where
  | ok (lines : List String)
  | notFound
  | readError (linesRead : List String)
deriving DecidableEq

/-- The unsorted rows of `parse_license_plate_log` (everything before the
`sort_values` call); empty on either read error. -/
def rawResults (src : LogSource) (θ : ℚ) : List Row :=
  match src with
  | .notFound => []
  | .readError _ => []
  | .ok lines => buildResults (group_similar_plates (aggregate lines) θ)

/-- `parse_license_plate_log` (summarize_platesv3.py lines 70–138): parse and
aggregate the lines (empty result on a read error), group similar plates,
build the rows, sort by confidence level descending. -/
def parse_license_plate_log (src : LogSource) (θ : ℚ) : List Row :=
  match src with
  | .notFound => []
  | .readError _ => []
  | .ok lines =>
    pandasSortDesc Row.confidence_level
      (buildResults (group_similar_plates (aggregate lines) θ))

/-- `main` writes the CSV and the report exactly when the parsed table is
nonempty (`if results_df.empty: return` at lines 221–223). -/
def writesOutputs (src : LogSource) (θ : ℚ) : Bool :=
  !(parse_license_plate_log src θ).isEmpty

/-- A summary row of the non-grouping variant (summarize_platesv2.py). -/
structure RowV2 where
  plate_found : String
  confidence_level : ℚ
  first_frame : Nat
  last_frame : Nat
  total_detections : Nat
deriving DecidableEq

namespace V2

/-- Row construction of summarize_platesv2.py's `parse_license_plate_log`
(lines 50–60): one row per aggregated plate with a nonempty frame list. -/
def buildResults (pd : List (String × PlateRec)) : List RowV2 :=
  pd.filterMap (fun e =>
    if e.2.frames.isEmpty then none
    else some
      { plate_found := e.1,
        confidence_level :=
          pyRound2 ((e.2.confidences.foldl (· + ·) 0) / (e.2.confidences.length : ℚ)),
        first_frame := listMin e.2.frames,
        last_frame := listMax e.2.frames,
        total_detections := e.2.frames.length })

/-- summarize_platesv2.py's `parse_license_plate_log` (lines 5–67): same
parser and aggregation, no similarity grouping, same descending sort. -/
def parse_license_plate_log (src : LogSource) : List RowV2 :=
  match src with
  | .notFound => []
  | .readError _ => []
  | .ok lines => pandasSortDesc RowV2.confidence_level (buildResults (aggregate lines))

end V2

/-- The grouping variant's row restricted to the columns the non-grouping
variant has (drop `similar_plates`). -/
def restrictRow (r : Row) : RowV2 :=
  { plate_found := r.plate_found,
    confidence_level := r.confidence_level,
    first_frame := r.first_frame,
    last_frame := r.last_frame,
    total_detections := r.total_detections }

theorem runLen_le_left (a b : List Char) : runLen a b ≤ a.length := by
  induction a generalizing b with
  | nil => simp [runLen]
  | cons x xs ih =>
    cases b with
    | nil => simp [runLen]
    | cons y ys =>
      simp only [runLen]
      split
      · simpa using ih ys
      · simp

theorem runLen_le_right (a b : List Char) : runLen a b ≤ b.length := by
  induction a generalizing b with
  | nil => simp [runLen]
  | cons x xs ih =>
    cases b with
    | nil => simp [runLen]
    | cons y ys =>
      simp only [runLen]
      split
      · simpa using ih ys
      · simp

theorem runLen_self (a : List Char) : runLen a a = a.length := by
  induction a with
  | nil => simp [runLen]
  | cons x xs ih => simp [runLen, ih]

theorem foldr_max_le {l : List Nat} {n : Nat} (h : ∀ x ∈ l, x ≤ n) :
    l.foldr max 0 ≤ n := by
  induction l with
  | nil => simp
  | cons x xs ih =>
    simp only [List.foldr_cons]
    exact max_le (h x (by simp)) (ih fun y hy => h y (by simp [hy]))

theorem bestSize_le_left (a b : List Char) : bestSize a b ≤ a.length := by
  apply foldr_max_le
  intro x hx
  simp only [List.mem_map] at hx
  obtain ⟨p, -, rfl⟩ := hx
  calc matchLenAt a b p.1 p.2 ≤ (a.drop p.1).length := runLen_le_left _ _
    _ ≤ a.length := by simp [List.length_drop]

theorem matchTotalF_nil_nil (fuel : Nat) : matchTotalF fuel [] [] = 0 := by
  cases fuel with
  | zero => rfl
  | succ n => simp [matchTotalF, bestPair, idxPairs]

theorem idxPairs_cons (n m : Nat) : ∃ t, idxPairs (n + 1) (m + 1) = (0, 0) :: t := by
  simp only [idxPairs, List.range_succ_eq_map, List.foldr_cons, List.map_cons,
    List.cons_append]
  exact ⟨_, rfl⟩

theorem matchTotal_self (a : List Char) : matchTotal a a = a.length := by
  by_cases ha : a = []
  · subst ha; simp [matchTotal, matchTotalF_nil_nil]
  · have hpos : 0 < a.length := List.length_pos.mpr ha
    obtain ⟨n, hn⟩ : ∃ n, a.length = n + 1 := ⟨a.length - 1, by omega⟩
    obtain ⟨t, ht⟩ := idxPairs_cons n n
    have hk : matchLenAt a a 0 0 = a.length := by
      simp [matchLenAt, runLen_self]
    have hpair : bestPair a a = some (0, 0) := by
      rw [bestPair, hn, ht]
      apply List.find?_cons_of_pos
      rw [decide_eq_true_eq, hk]
      exact bestSize_le_left a a
    obtain ⟨m, hm⟩ : ∃ m, a.length + a.length = m + 1 := ⟨a.length + a.length - 1, by omega⟩
    rw [matchTotal, hm, matchTotalF, hpair]
    simp only [hk]
    rw [if_neg (by omega)]
    simp [matchTotalF_nil_nil, List.drop_length]

/-- The similarity of any string with itself is exactly 100. -/
theorem calculate_similarity_self (a : String) : calculate_similarity a a = 100 := by
  simp only [calculate_similarity]
  split
  · rfl
  · next h =>
    rw [matchTotal_self]
    have hne : ((a.data.length + a.data.length : Nat) : ℚ) ≠ 0 := by
      exact_mod_cast h
    rw [div_eq_iff hne]
    push_cast
    ring

/-- The six-line example log of the specification. -/
def exampleLines : List String :=
  ["Frame: 1", "  - AI3NRU	 confidence: 82.6628", "Frame: 2",
   "  - AI3NRU	 confidence: 79.0", "Frame: 5", "  - AI3NR0	 confidence: 88.0"]

set_option maxRecDepth 40000 in
/-- C1: on the six-line example log, with similarity threshold 80.0 the
pipeline produces exactly one summary row — representative `AI3NR0`, similar
plates `AI3NRU`, confidence level `round((82.6628+79.0+88.0)/3, 2) = 83.22`,
first frame 1, last frame 5, three detections — and with threshold 100.0 it
produces two separate rows, one per distinct text, each with its own
statistics. -/
theorem c1_end_to_end_example :
    parse_license_plate_log (.ok exampleLines) 80 =
      [{ plate_found := "AI3NR0", similar_plates := "AI3NRU",
         confidence_level := 8322 / 100, first_frame := 1, last_frame := 5,
         total_detections := 3 }]
    ∧ parse_license_plate_log (.ok exampleLines) 100 =
      [{ plate_found := "AI3NR0", similar_plates := "",
         confidence_level := 88, first_frame := 5, last_frame := 5,
         total_detections := 1 },
       { plate_found := "AI3NRU", similar_plates := "",
         confidence_level := 8083 / 100, first_frame := 1, last_frame := 2,
         total_detections := 2 }] := by
  constructor
  · decide
  · decide

/-- C3 (counterexample): the similarity metric is not symmetric —
`calculate_similarity("AB", "BACB")` is 200/3 ≈ 66.7 while
`calculate_similarity("BACB", "AB")` is 100/3 ≈ 33.3. -/
theorem c3_similarity_symmetry_counterexample :
    calculate_similarity "AB" "BACB" = 200 / 3
    ∧ calculate_similarity "BACB" "AB" = 100 / 3
    ∧ calculate_similarity "AB" "BACB" ≠ calculate_similarity "BACB" "AB" := by
  refine ⟨by decide, by decide, by decide⟩

/-- C3 (amended): for every string `a`, `calculate_similarity(a, a)` is
exactly 100; symmetry, however, does not hold in general. -/
theorem c3_similarity_self_100 :
    ∀ a : String, calculate_similarity a a = 100 :=
  calculate_similarity_self

/-- C2: in the greedy grouping scan from seed `main` over the candidates
after it in discovery order, a candidate that is not yet consumed joins the
seed's cluster if and only if its similarity with the original seed text —
never with previously-joined members — is at least the threshold
(inclusively); a candidate already consumed is never reconsidered. -/
theorem c2_greedy_join_iff (θ : ℚ) (main : String) (cands used : List String)
    (p : String) :
    (p ∉ used →
      (p ∈ (scanCandidates θ main cands used).1 ↔
        p ∈ cands ∧ θ ≤ calculate_similarity main p))
    ∧ (p ∈ used → p ∉ (scanCandidates θ main cands used).1) := by
  induction cands generalizing used with
  | nil =>
    constructor
    · intro _
      simp [scanCandidates]
    · intro _
      simp [scanCandidates]
  | cons q ps ih =>
    constructor
    · intro hp
      simp only [scanCandidates]
      split
      · next hq =>
        have hne : p ≠ q := fun h => hp (h ▸ hq)
        rw [(ih used).1 hp]
        simp [hne]
      · next hq =>
        split
        · next hsim =>
          by_cases hpq : p = q
          · subst hpq
            simp [hsim]
          · have hp' : p ∉ q :: used := by simp [hpq, hp]
            have := (ih (q :: used)).1 hp'
            simp only [List.mem_cons, hpq, false_or]
            simpa [hpq] using this
        · next hsim =>
          by_cases hpq : p = q
          · subst hpq
            rw [(ih used).1 hp]
            simp [hsim]
          · rw [(ih used).1 hp]
            simp [hpq]
    · intro hp
      simp only [scanCandidates]
      split
      · exact (ih used).2 hp
      · split
        · next hq hsim =>
          have hne : p ≠ q := fun h => hq (h ▸ hp)
          have hp' : p ∈ q :: used := by simp [hp]
          have := (ih (q :: used)).2 hp'
          simp [hne, this]
        · exact (ih used).2 hp

set_option maxRecDepth 40000 in
/-- C2 witness: with threshold 80, seed `AI3NRU`, consumed set `{XX}` and
candidates `[AI3NR0]`, the unconsumed candidate `AI3NR0` joins (its
similarity with the seed is 250/3 ≥ 80), and the consumed text `XX` is not
in the joined list. -/
theorem c2_greedy_join_iff_witness :
    "AI3NR0" ∈ (scanCandidates 80 "AI3NRU" ["AI3NR0"] ["XX"]).1
    ∧ "XX" ∉ (scanCandidates 80 "AI3NRU" ["AI3NR0"] ["XX"]).1 := by
  constructor
  · exact ((c2_greedy_join_iff 80 "AI3NRU" ["AI3NR0"] ["XX"] "AI3NR0").1
      (by decide)).mpr ⟨by decide, by decide⟩
  · exact (c2_greedy_join_iff 80 "AI3NRU" ["AI3NR0"] ["XX"] "XX").2 (by decide)

theorem appendEvent_forall {P : PlateRec → Prop} {pd : List (String × PlateRec)}
    (hpd : ∀ e ∈ pd, P e.2) {k : String} {c : ℚ} {f : Nat}
    (hnew : P ⟨[c], [f]⟩)
    (hext : ∀ r, P r → P ⟨r.confidences ++ [c], r.frames ++ [f]⟩) :
    ∀ e ∈ appendEvent pd k c f, P e.2 := by
  induction pd with
  | nil =>
    intro e he
    simp only [appendEvent, List.mem_singleton] at he
    subst he
    exact hnew
  | cons hd tl ih =>
    obtain ⟨k', r⟩ := hd
    intro e he
    simp only [appendEvent] at he
    split at he
    · rcases List.mem_cons.mp he with h | h
      · subst h
        exact hext r (hpd (k', r) (by simp))
      · exact hpd e (by simp [h])
    · rcases List.mem_cons.mp he with h | h
      · subst h
        exact hpd (k', r) (by simp)
      · exact ih (fun e' he' => hpd e' (by simp [he'])) e h

theorem plateMatch_conf_nonneg (s : List Char) (p : String) (c : ℚ)
    (h : plateMatch s = some (p, c)) : 0 ≤ c := by
  simp only [plateMatch] at h
  repeat' split at h
  all_goals first
    | (simp only [Option.some.injEq, Prod.mk.injEq] at h
       obtain ⟨-, hc⟩ := h
       subst hc
       unfold fracToQ
       positivity)
    | simp at h

theorem parseLines_forall {P : PlateRec → Prop}
    (hnew : ∀ c f, (0 : ℚ) ≤ c → P ⟨[c], [f]⟩)
    (hext : ∀ r c f, (0 : ℚ) ≤ c → P r → P ⟨r.confidences ++ [c], r.frames ++ [f]⟩) :
    ∀ (lines : List String) (cur : Option Nat) (pd : List (String × PlateRec)),
      (∀ e ∈ pd, P e.2) → ∀ e ∈ parseLines lines cur pd, P e.2 := by
  intro lines
  induction lines with
  | nil => intro cur pd hpd; simpa [parseLines] using hpd
  | cons line rest ih =>
    intro cur pd hpd
    simp only [parseLines]
    split
    · exact ih _ pd hpd
    · split
      · next conf f heq =>
        apply ih _ _
        apply appendEvent_forall hpd
        · exact hnew conf f (plateMatch_conf_nonneg _ _ _ heq)
        · exact fun r hr => hext r conf f (plateMatch_conf_nonneg _ _ _ heq) hr
      · exact ih _ pd hpd

/-- C6: every record in the aggregated plate data has equally many
confidences and frames, at least one of each; records with zero events are
never created. -/
theorem c6_aggregate_invariant (lines : List String) (k : String) (r : PlateRec)
    (h : (k, r) ∈ aggregate lines) :
    r.confidences.length = r.frames.length ∧ 1 ≤ r.frames.length := by
  have := parseLines_forall
    (P := fun r => r.confidences.length = r.frames.length ∧ 1 ≤ r.frames.length)
    (fun c f _ => by simp)
    (fun r c f _ hr => by simp [hr.1, Nat.le_succ_of_le hr.2])
    lines none [] (by simp)
  exact this (k, r) h

/-- C6 witness: the record aggregated for `AB` from a one-event log has one
confidence and one frame. -/
theorem c6_aggregate_invariant_witness :
    (let r : PlateRec := ⟨[50], [1]⟩;
     r.confidences.length = r.frames.length ∧ 1 ≤ r.frames.length) :=
  c6_aggregate_invariant ["Frame: 1", "- AB confidence: 50"] "AB" ⟨[50], [1]⟩
    (by decide)

/-- C9 (counterexample): the parser puts no upper bound on confidences — the
line `- AB confidence: 150.5` produces an event whose confidence 150.5
exceeds 100, so not every parsed confidence lies in [0, 100]. -/
theorem c9_confidence_above_100_counterexample :
    aggregate ["Frame: 1", "- AB confidence: 150.5"] =
      [("AB", ⟨[301 / 2], [1]⟩)]
    ∧ ¬((301 : ℚ) / 2 ≤ 100) := by
  constructor
  · decide
  · decide

/-- C9 (amended): every confidence recorded by the parser is a non-negative
rational (the regex admits only unsigned decimal literals, with no upper
bound), and every frame number is a natural number. -/
theorem c9_confidence_nonneg (lines : List String) (k : String) (r : PlateRec)
    (h : (k, r) ∈ aggregate lines) : ∀ c ∈ r.confidences, 0 ≤ c := by
  have := parseLines_forall
    (P := fun r => ∀ c ∈ r.confidences, 0 ≤ c)
    (fun c f hc => by simpa)
    (fun r c f hc hr => by
      intro x hx
      rcases List.mem_append.mp hx with h' | h'
      · exact hr x h'
      · simp only [List.mem_singleton] at h'
        exact h' ▸ hc)
    lines none [] (by simp)
  exact this (k, r) h

/-- C9 witness: the one confidence aggregated for `AB` from a concrete log
line is non-negative. -/
theorem c9_confidence_nonneg_witness : (0 : ℚ) ≤ 50 := by
  have := c9_confidence_nonneg ["Frame: 1", "- AB confidence: 50"] "AB"
    ⟨[50], [1]⟩ (by decide)
  exact this 50 (by decide)

theorem parseLines_no_frame (lines : List String)
    (h : ∀ l ∈ lines, frameMatch (pyStrip l.data) = none) :
    ∀ pd, parseLines lines none pd = pd := by
  induction lines with
  | nil => intro pd; rfl
  | cons line rest ih =>
    intro pd
    have ihr := ih (fun l hl => h l (by simp [hl]))
    simp only [parseLines, h line (by simp)]
    cases hp : plateMatch (pyStrip line.data) with
    | none => exact ihr pd
    | some pc =>
      obtain ⟨plate, conf⟩ := pc
      exact ihr pd

/-- C7: a plate-reading line that appears before any `Frame:` marker is
silently ignored; consequently a log containing no `Frame:` marker at all
aggregates no events and produces an empty result table. -/
theorem c7_no_frame_marker_empty (lines : List String) (θ : ℚ)
    (h : ∀ l ∈ lines, frameMatch (pyStrip l.data) = none) :
    aggregate lines = [] ∧ parse_license_plate_log (.ok lines) θ = [] := by
  have hag : aggregate lines = [] := parseLines_no_frame lines h []
  refine ⟨hag, ?_⟩
  simp [parse_license_plate_log, hag, group_similar_plates, groupLoop,
    buildResults, pandasSortDesc, sortAscByKey]

/-- C7 witness: a log consisting of a single orphan plate line (no `Frame:`
marker) gives an empty aggregate and an empty table. -/
theorem c7_no_frame_marker_empty_witness :
    aggregate ["- AB confidence: 50"] = []
    ∧ parse_license_plate_log (.ok ["- AB confidence: 50"]) 80 = [] :=
  c7_no_frame_marker_empty ["- AB confidence: 50"] 80 (by decide)

/-- C8: a missing input file or any other read error yields an empty result
table (never a partial one), after which the pipeline writes no output file;
the same no-write exit happens whenever parsing yields zero rows. -/
theorem c8_error_empty_no_outputs (θ : ℚ) (linesRead : List String)
    (src : LogSource) :
    parse_license_plate_log .notFound θ = []
    ∧ parse_license_plate_log (.readError linesRead) θ = []
    ∧ writesOutputs .notFound θ = false
    ∧ writesOutputs (.readError linesRead) θ = false
    ∧ (parse_license_plate_log src θ = [] → writesOutputs src θ = false) := by
  refine ⟨rfl, rfl, rfl, rfl, ?_⟩
  intro h
  simp [writesOutputs, h]

/-- C8 witness: at threshold 80 with an empty log, the parse result is empty
and no outputs are written; the error sources also write nothing. -/
theorem c8_error_empty_no_outputs_witness :
    writesOutputs (.ok []) 80 = false
    ∧ writesOutputs .notFound 80 = false := by
  have h := c8_error_empty_no_outputs 80 ["x"] (.ok [])
  exact ⟨h.2.2.2.2 (by decide), h.2.2.1⟩

theorem bestPlate_cons (pd : List (String × PlateRec)) (main p : String)
    (ps : List String) :
    bestPlate pd main (p :: ps) =
      bestPlate pd (if avgConf pd main < avgConf pd p then p else main) ps := rfl

theorem bestPlate_split (pd : List (String × PlateRec)) :
    ∀ (tl : List String) (main : String),
      ∃ l1 l2, main :: tl = l1 ++ bestPlate pd main tl :: l2
        ∧ (∀ p ∈ l1, avgConf pd p < avgConf pd (bestPlate pd main tl))
        ∧ (∀ p ∈ main :: tl, avgConf pd p ≤ avgConf pd (bestPlate pd main tl)) := by
  intro tl
  induction tl with
  | nil =>
    intro main
    exact ⟨[], [], rfl, by simp, by simp [bestPlate]⟩
  | cons p ps ih =>
    intro main
    rw [bestPlate_cons]
    by_cases hlt : avgConf pd main < avgConf pd p
    · rw [if_pos hlt]
      obtain ⟨l1, l2, heq, hl1, hall⟩ := ih p
      refine ⟨main :: l1, l2, ?_, ?_, ?_⟩
      · rw [List.cons_append, ← heq]
      · intro x hx
        rcases List.mem_cons.mp hx with h | h
        · subst h
          exact lt_of_lt_of_le hlt (hall p (by simp))
        · exact hl1 x h
      · intro x hx
        rcases List.mem_cons.mp hx with h | h
        · subst h
          exact le_of_lt (lt_of_lt_of_le hlt (hall p (by simp)))
        · exact hall x h
    · rw [if_neg hlt]
      have hple : avgConf pd p ≤ avgConf pd main := le_of_not_lt hlt
      obtain ⟨l1, l2, heq, hl1, hall⟩ := ih main
      cases l1 with
      | nil =>
        simp only [List.nil_append] at heq
        obtain ⟨hb, hl2⟩ := List.cons_eq_cons.mp heq
        refine ⟨[], p :: ps, ?_, by simp, ?_⟩
        · rw [List.nil_append, ← hb]
        · intro x hx
          rcases List.mem_cons.mp hx with h | h
          · subst h; rw [← hb]
          · rcases List.mem_cons.mp h with h' | h'
            · subst h'
              calc avgConf pd x ≤ avgConf pd main := hple
                _ ≤ avgConf pd (bestPlate pd main ps) := hall main (by simp)
            · exact hall x (by simp [h'])
      | cons h1 t =>
        rw [List.cons_append] at heq
        obtain ⟨hh1, hh2⟩ := List.cons_eq_cons.mp heq
        subst hh1
        have hmainlt : avgConf pd main < avgConf pd (bestPlate pd main ps) :=
          hl1 main (by simp)
        refine ⟨main :: p :: t, l2, ?_, ?_, ?_⟩
        · rw [List.cons_append, List.cons_append, ← hh2]
        · intro x hx
          rcases List.mem_cons.mp hx with h | h
          · subst h; exact hmainlt
          · rcases List.mem_cons.mp h with h' | h'
            · subst h'
              exact lt_of_le_of_lt hple hmainlt
            · exact hl1 x (by simp [h'])
        · intro x hx
          rcases List.mem_cons.mp hx with h | h
          · subst h; exact le_of_lt hmainlt
          · rcases List.mem_cons.mp h with h' | h'
            · subst h'
              exact le_of_lt (lt_of_le_of_lt hple hmainlt)
            · exact hall x (by simp [h'])

set_option maxRecDepth 40000 in
/-- C5: in every formed cluster the representative is the member whose own
mean confidence is strictly highest, ties keeping the first-encountered
maximum in discovery order (all members before the representative have
strictly smaller means, and no member exceeds it); the other members become
`similar_plates` in discovery order.  In particular, for members `ABC123`
(confidences 70, 72) and `ABC124` (confidence 90) the representative is
`ABC124` and `similar_plates` is `["ABC123"]`. -/
theorem c5_representative_stable_argmax :
    (∀ (pd : List (String × PlateRec)) (main : String) (tl : List String),
      ∃ l1 l2, main :: tl = l1 ++ bestPlate pd main tl :: l2
        ∧ (∀ p ∈ l1, avgConf pd p < avgConf pd (bestPlate pd main tl))
        ∧ (∀ p ∈ main :: tl, avgConf pd p ≤ avgConf pd (bestPlate pd main tl)))
    ∧ group_similar_plates
        [("ABC123", ⟨[70, 72], [1, 2]⟩), ("ABC124", ⟨[90], [3]⟩)] 80
      = [{ main_plate := "ABC124", similar_plates := ["ABC123"],
           all_confidences := [70, 72, 90], all_frames := [1, 2, 3] }] :=
  ⟨fun pd main tl => bestPlate_split pd tl main, by decide⟩

theorem insertByKey_perm {α : Type} (key : α → ℚ) (x : α) (l : List α) :
    List.Perm (insertByKey key x l) (x :: l) := by
  induction l with
  | nil => exact List.Perm.refl _
  | cons y ys ih =>
    simp only [insertByKey]
    split
    · exact List.Perm.refl _
    · exact (ih.cons y).trans (List.Perm.swap x y ys)

theorem sortAscByKey_perm {α : Type} (key : α → ℚ) (l : List α) :
    List.Perm (sortAscByKey key l) l := by
  induction l with
  | nil => exact List.Perm.refl _
  | cons x xs ih =>
    exact (insertByKey_perm key x (sortAscByKey key xs)).trans (ih.cons x)

theorem insertByKey_pairwise {α : Type} (key : α → ℚ) (x : α) (l : List α)
    (h : l.Pairwise (fun a b => key a ≤ key b)) :
    (insertByKey key x l).Pairwise (fun a b => key a ≤ key b) := by
  induction l with
  | nil => simp [insertByKey]
  | cons y ys ih =>
    simp only [insertByKey]
    split
    · next hxy =>
      apply List.Pairwise.cons _ h
      intro b hb
      rcases List.mem_cons.mp hb with hb | hb
      · exact hb ▸ hxy
      · exact le_trans hxy (List.rel_of_pairwise_cons h hb)
    · next hxy =>
      have hyx : key y ≤ key x := le_of_lt (lt_of_not_le hxy)
      apply List.Pairwise.cons _ (ih (List.Pairwise.sublist (List.sublist_cons_self y ys) h))
      intro b hb
      have hb' := (insertByKey_perm key x ys).mem_iff.mp hb
      rcases List.mem_cons.mp hb' with hb' | hb'
      · exact hb' ▸ hyx
      · exact List.rel_of_pairwise_cons h hb'

theorem sortAscByKey_pairwise {α : Type} (key : α → ℚ) (l : List α) :
    (sortAscByKey key l).Pairwise (fun a b => key a ≤ key b) := by
  induction l with
  | nil => simp [sortAscByKey]
  | cons x xs ih => exact insertByKey_pairwise key x _ ih

theorem pandasSortDesc_pairwise {α : Type} (key : α → ℚ) (l : List α) :
    (pandasSortDesc key l).Pairwise (fun a b => key b ≤ key a) := by
  rw [pandasSortDesc, List.pairwise_reverse]
  exact sortAscByKey_pairwise key l

theorem pandasSortDesc_perm {α : Type} (key : α → ℚ) (l : List α) :
    List.Perm (pandasSortDesc key l) l :=
  (List.reverse_perm _).trans (sortAscByKey_perm key l)

theorem insertByKey_filter_eq {α : Type} (key : α → ℚ) (c : ℚ) (x : α)
    (l : List α) (hx : key x = c) :
    (insertByKey key x l).filter (fun y => key y = c) =
      x :: l.filter (fun y => key y = c) := by
  induction l with
  | nil => simp [insertByKey, List.filter, hx]
  | cons y ys ih =>
    simp only [insertByKey]
    split
    · simp [List.filter, hx]
    · next hxy =>
      have hyc : ¬(key y = c) := by
        intro hc
        exact hxy (le_of_eq (hx.trans hc.symm))
      simp only [List.filter_cons, hyc, decide_eq_true_eq, if_neg hyc, ih]
      simp [hyc]

theorem insertByKey_filter_ne {α : Type} (key : α → ℚ) (c : ℚ) (x : α)
    (l : List α) (hx : ¬(key x = c)) :
    (insertByKey key x l).filter (fun y => key y = c) =
      l.filter (fun y => key y = c) := by
  induction l with
  | nil => simp [insertByKey, List.filter, hx]
  | cons y ys ih =>
    simp only [insertByKey]
    split
    · simp [List.filter_cons, hx]
    · simp [List.filter_cons, ih]

theorem sortAscByKey_filter {α : Type} (key : α → ℚ) (c : ℚ) (l : List α) :
    (sortAscByKey key l).filter (fun y => key y = c) =
      l.filter (fun y => key y = c) := by
  induction l with
  | nil => rfl
  | cons x xs ih =>
    simp only [sortAscByKey]
    by_cases hx : key x = c
    · rw [insertByKey_filter_eq key c x _ hx, ih]
      simp [List.filter_cons, hx]
    · rw [insertByKey_filter_ne key c x _ hx, ih]
      simp [List.filter_cons, hx]

theorem pandasSortDesc_filter {α : Type} (key : α → ℚ) (c : ℚ) (l : List α) :
    (pandasSortDesc key l).filter (fun y => key y = c) =
      (l.filter (fun y => key y = c)).reverse := by
  rw [pandasSortDesc, List.filter_reverse, sortAscByKey_filter]

theorem parse_eq_sort_raw (src : LogSource) (θ : ℚ) :
    parse_license_plate_log src θ =
      pandasSortDesc Row.confidence_level (rawResults src θ) := by
  cases src <;> rfl

set_option maxRecDepth 40000 in
/-- C4 (counterexample): two plates discovered in the order `AAAA`, `ZZZZ`,
both with confidence level 50, come out of the sort in the order `ZZZZ`,
`AAAA` — the reverse of discovery order, not discovery order as a stable
descending sort would give. -/
theorem c4_sort_tie_counterexample :
    (aggregate ["Frame: 1", "- AAAA confidence: 50", "- ZZZZ confidence: 50"]).map
        Prod.fst = ["AAAA", "ZZZZ"]
    ∧ (parse_license_plate_log
        (.ok ["Frame: 1", "- AAAA confidence: 50", "- ZZZZ confidence: 50"]) 80).map
        Row.plate_found = ["ZZZZ", "AAAA"]
    ∧ (parse_license_plate_log
        (.ok ["Frame: 1", "- AAAA confidence: 50", "- ZZZZ confidence: 50"]) 80).map
        Row.confidence_level = [50, 50] := by
  refine ⟨by decide, by decide, by decide⟩

/-- C4 (amended): the summary rows are a permutation of the built rows,
sorted descending by confidence level; rows of equal confidence appear in
the reverse of their clusters' discovery order (pandas reverses a stable
ascending argsort when sorting descending). -/
theorem c4_sort_descending_ties_reversed (src : LogSource) (θ : ℚ) :
    (parse_license_plate_log src θ).Pairwise
        (fun x y => y.confidence_level ≤ x.confidence_level)
    ∧ List.Perm (parse_license_plate_log src θ) (rawResults src θ)
    ∧ ∀ c : ℚ, (parse_license_plate_log src θ).filter
          (fun r => r.confidence_level = c)
        = ((rawResults src θ).filter (fun r => r.confidence_level = c)).reverse := by
  rw [parse_eq_sort_raw]
  exact ⟨pandasSortDesc_pairwise _ _, pandasSortDesc_perm _ _,
    fun c => pandasSortDesc_filter _ c _⟩

theorem mem_foldr_pairs {p : Nat × Nat} {lb : Nat} :
    ∀ L : List Nat,
      p ∈ L.foldr (fun i acc => (List.range lb).map (fun j => (i, j)) ++ acc) [] →
      p.1 ∈ L ∧ p.2 < lb := by
  intro L
  induction L with
  | nil => intro h; simp at h
  | cons i L ih =>
    intro h
    simp only [List.foldr_cons, List.mem_append, List.mem_map] at h
    rcases h with h | h
    · obtain ⟨j, hj, rfl⟩ := h
      exact ⟨by simp, by simpa using List.mem_range.mp hj⟩
    · obtain ⟨h1, h2⟩ := ih h
      exact ⟨by simp [h1], h2⟩

theorem mem_idxPairs {p : Nat × Nat} {la lb : Nat} (h : p ∈ idxPairs la lb) :
    p.1 < la ∧ p.2 < lb := by
  rw [idxPairs] at h
  obtain ⟨h1, h2⟩ := mem_foldr_pairs _ h
  exact ⟨List.mem_range.mp h1, h2⟩

theorem matchLenAt_le_left (a b : List Char) (i j : Nat) :
    matchLenAt a b i j ≤ a.length - i := by
  calc matchLenAt a b i j ≤ (a.drop i).length := runLen_le_left _ _
    _ = a.length - i := List.length_drop i a

theorem matchLenAt_le_right (a b : List Char) (i j : Nat) :
    matchLenAt a b i j ≤ b.length - j := by
  calc matchLenAt a b i j ≤ (b.drop j).length := runLen_le_right _ _
    _ = b.length - j := List.length_drop j b

theorem matchTotalF_le (fuel : Nat) :
    ∀ a b : List Char, matchTotalF fuel a b ≤ min a.length b.length := by
  induction fuel with
  | zero => intro a b; simp [matchTotalF]
  | succ n ih =>
    intro a b
    rw [matchTotalF]
    cases hbp : bestPair a b with
    | none => simp
    | some ij =>
      obtain ⟨i, j⟩ := ij
      simp only
      split
      · simp
      · next hk =>
        have hij := mem_idxPairs (List.mem_of_find?_eq_some hbp)
        obtain ⟨hi, hj⟩ := hij
        have hkla := matchLenAt_le_left a b i j
        have hklb := matchLenAt_le_right a b i j
        have hL := ih (a.take i) (b.take j)
        have hR := ih (a.drop (i + matchLenAt a b i j)) (b.drop (j + matchLenAt a b i j))
        simp only [List.length_take, List.length_drop] at hL hR
        omega

theorem runLen_take_eq : ∀ a b : List Char,
    a.take (runLen a b) = b.take (runLen a b) := by
  intro a
  induction a with
  | nil => intro b; simp [runLen]
  | cons x xs ih =>
    intro b
    cases b with
    | nil => simp [runLen]
    | cons y ys =>
      simp only [runLen]
      split
      · next hxy =>
        simp only [List.take_succ_cons, hxy]
        rw [ih ys]
      · simp

theorem matchTotalF_full (fuel : Nat) :
    ∀ a b : List Char,
      2 * matchTotalF fuel a b = a.length + b.length → a = b := by
  induction fuel with
  | zero =>
    intro a b h
    simp only [matchTotalF, Nat.mul_zero] at h
    have ha : a.length = 0 := by omega
    have hb : b.length = 0 := by omega
    rw [List.length_eq_zero.mp ha, List.length_eq_zero.mp hb]
  | succ n ih =>
    intro a b h
    rw [matchTotalF] at h
    cases hbp : bestPair a b with
    | none =>
      rw [hbp] at h
      simp only [Nat.mul_zero] at h
      have ha : a.length = 0 := by omega
      have hb : b.length = 0 := by omega
      rw [List.length_eq_zero.mp ha, List.length_eq_zero.mp hb]
    | some ij =>
      obtain ⟨i, j⟩ := ij
      rw [hbp] at h
      simp only at h
      by_cases hk : matchLenAt a b i j = 0
      · rw [if_pos hk] at h
        simp only [Nat.mul_zero] at h
        have ha : a.length = 0 := by omega
        have hb : b.length = 0 := by omega
        rw [List.length_eq_zero.mp ha, List.length_eq_zero.mp hb]
      · rw [if_neg hk] at h
        obtain ⟨hi, hj⟩ := mem_idxPairs (List.mem_of_find?_eq_some hbp)
        have hkla := matchLenAt_le_left a b i j
        have hklb := matchLenAt_le_right a b i j
        have hL := matchTotalF_le n (a.take i) (b.take j)
        have hR := matchTotalF_le n (a.drop (i + matchLenAt a b i j))
          (b.drop (j + matchLenAt a b i j))
        simp only [List.length_take, List.length_drop] at hL hR
        have heqL : 2 * matchTotalF n (a.take i) (b.take j) =
            (a.take i).length + (b.take j).length := by
          simp only [List.length_take]
          omega
        have heqR : 2 * matchTotalF n (a.drop (i + matchLenAt a b i j))
              (b.drop (j + matchLenAt a b i j)) =
            (a.drop (i + matchLenAt a b i j)).length
              + (b.drop (j + matchLenAt a b i j)).length := by
          simp only [List.length_drop]
          omega
        have hLeq := ih _ _ heqL
        have hReq := ih _ _ heqR
        have hMeq : (a.drop i).take (matchLenAt a b i j) =
            (b.drop j).take (matchLenAt a b i j) := by
          have := runLen_take_eq (a.drop i) (b.drop j)
          simpa [matchLenAt] using this
        calc a = a.take i ++ ((a.drop i).take (matchLenAt a b i j)
                  ++ a.drop (i + matchLenAt a b i j)) := by
              rw [← List.drop_drop]
              rw [List.take_append_drop, List.take_append_drop]
          _ = b.take j ++ ((b.drop j).take (matchLenAt a b i j)
                  ++ b.drop (j + matchLenAt a b i j)) := by
              rw [hLeq, hMeq, hReq]
          _ = b := by
              rw [← List.drop_drop]
              rw [List.take_append_drop, List.take_append_drop]

theorem matchTotal_le (a b : List Char) :
    matchTotal a b ≤ min a.length b.length :=
  matchTotalF_le _ a b

theorem calculate_similarity_le_100 (a b : String) :
    calculate_similarity a b ≤ 100 := by
  simp only [calculate_similarity]
  split
  · exact le_refl _
  · next h =>
    have hM : matchTotal a.data b.data ≤ min a.data.length b.data.length :=
      matchTotal_le _ _
    have hTpos : (0 : ℚ) < ((a.data.length + b.data.length : Nat) : ℚ) := by
      have : 0 < a.data.length + b.data.length := Nat.pos_of_ne_zero h
      exact_mod_cast this
    rw [div_le_iff hTpos]
    have hn : 200 * matchTotal a.data b.data
        ≤ 100 * (a.data.length + b.data.length) := by omega
    calc (200 : ℚ) * (matchTotal a.data b.data : ℚ)
        = ((200 * matchTotal a.data b.data : Nat) : ℚ) := by push_cast; ring
      _ ≤ ((100 * (a.data.length + b.data.length) : Nat) : ℚ) := by exact_mod_cast hn
      _ = 100 * ((a.data.length + b.data.length : Nat) : ℚ) := by push_cast; ring

theorem calculate_similarity_eq_100_iff (a b : String) :
    100 ≤ calculate_similarity a b ↔ a = b := by
  constructor
  · intro h100
    simp only [calculate_similarity] at h100
    split at h100
    · next h =>
      have ha : a.data = [] := List.length_eq_zero.mp (by omega)
      have hb : b.data = [] := List.length_eq_zero.mp (by omega)
      cases a with
      | mk da =>
        cases b with
        | mk db => simp only at ha hb; rw [ha, hb]
    · next h =>
      have hM : matchTotal a.data b.data ≤ min a.data.length b.data.length :=
        matchTotal_le _ _
      have hTpos : (0 : ℚ) < ((a.data.length + b.data.length : Nat) : ℚ) := by
        have : 0 < a.data.length + b.data.length := Nat.pos_of_ne_zero h
        exact_mod_cast this
      rw [le_div_iff hTpos] at h100
      have hn : 100 * (a.data.length + b.data.length)
          ≤ 200 * matchTotal a.data b.data := by exact_mod_cast h100
      have heq : 2 * matchTotal a.data b.data
          = a.data.length + b.data.length := by omega
      rw [matchTotal] at heq
      have hdata : a.data = b.data := matchTotalF_full _ _ _ heq
      cases a with
      | mk da =>
        cases b with
        | mk db => simp only at hdata; rw [hdata]
  · rintro rfl
    rw [calculate_similarity_self]

theorem scanCandidates_100 (main : String) :
    ∀ (cands used : List String), (∀ p ∈ cands, p ≠ main) →
      scanCandidates 100 main cands used = ([], used) := by
  intro cands
  induction cands with
  | nil => intro used _; rfl
  | cons q ps ih =>
    intro used hne
    simp only [scanCandidates]
    split
    · exact ih used (fun p hp => hne p (by simp [hp]))
    · rw [if_neg]
      · exact ih used (fun p hp => hne p (by simp [hp]))
      · intro h100
        exact hne q (by simp)
          ((calculate_similarity_eq_100_iff main q).mp h100).symm

theorem bestPlate_nil (pd : List (String × PlateRec)) (main : String) :
    bestPlate pd main [] = main := rfl

theorem groupLoop_100 (pd : List (String × PlateRec)) :
    ∀ (keys used : List String), keys.Nodup → (∀ k ∈ keys, k ∉ used) →
      groupLoop 100 pd keys used =
        keys.map (fun k =>
          { main_plate := k, similar_plates := [],
            all_confidences := (lookupRec pd k).confidences,
            all_frames := (lookupRec pd k).frames }) := by
  intro keys
  induction keys with
  | nil => intro used _ _; rfl
  | cons main rest ih =>
    intro used hnd hdisj
    have hmain : main ∉ used := hdisj main (by simp)
    have hrest_ne : ∀ p ∈ rest, p ≠ main := by
      intro p hp heq
      exact (List.nodup_cons.mp hnd).1 (heq ▸ hp)
    have hscan := scanCandidates_100 main rest used hrest_ne
    simp only [groupLoop, if_neg hmain, hscan]
    rw [ih (main :: used) (List.nodup_cons.mp hnd).2
      (fun k hk => by
        simp only [List.mem_cons, not_or]
        exact ⟨hrest_ne k hk, hdisj k (by simp [hk])⟩)]
    simp [bestPlate_nil, List.filter]

theorem appendEvent_keys (pd : List (String × PlateRec)) (k : String) (c : ℚ)
    (f : Nat) :
    (appendEvent pd k c f).map Prod.fst =
      if k ∈ pd.map Prod.fst then pd.map Prod.fst
      else pd.map Prod.fst ++ [k] := by
  induction pd with
  | nil => simp [appendEvent]
  | cons hd tl ih =>
    obtain ⟨k', r⟩ := hd
    simp only [appendEvent]
    split
    · next hkk =>
      subst hkk
      simp
    · next hkk =>
      have hne : k ≠ k' := fun h => hkk h.symm
      simp only [List.map_cons, ih, List.mem_cons]
      by_cases hmem : k ∈ tl.map Prod.fst
      · simp [hmem, hne]
      · simp [hmem, hne]

theorem appendEvent_nodup_keys {pd : List (String × PlateRec)} {k : String}
    {c : ℚ} {f : Nat} (h : (pd.map Prod.fst).Nodup) :
    ((appendEvent pd k c f).map Prod.fst).Nodup := by
  rw [appendEvent_keys]
  split
  · exact h
  · next hmem =>
    rw [List.nodup_append]
    refine ⟨h, List.nodup_singleton k, ?_⟩
    intro a ha hak
    simp only [List.mem_singleton] at hak
    exact hmem (hak ▸ ha)

theorem parseLines_nodup_keys :
    ∀ (lines : List String) (cur : Option Nat) (pd : List (String × PlateRec)),
      (pd.map Prod.fst).Nodup → ((parseLines lines cur pd).map Prod.fst).Nodup := by
  intro lines
  induction lines with
  | nil => intro cur pd h; exact h
  | cons line rest ih =>
    intro cur pd h
    simp only [parseLines]
    split
    · exact ih _ pd h
    · split
      · exact ih _ _ (appendEvent_nodup_keys h)
      · exact ih _ pd h

theorem aggregate_nodup_keys (lines : List String) :
    ((aggregate lines).map Prod.fst).Nodup :=
  parseLines_nodup_keys lines none [] (by simp)

theorem map_keys_lookup {β : Type} (g : String → PlateRec → β) :
    ∀ pd : List (String × PlateRec), (pd.map Prod.fst).Nodup →
      (pd.map Prod.fst).map (fun k => g k (lookupRec pd k)) =
        pd.map (fun e => g e.1 e.2) := by
  intro pd
  induction pd with
  | nil => intro _; rfl
  | cons hd tl ih =>
    obtain ⟨k, r⟩ := hd
    intro hnd
    simp only [List.map_cons]
    have hk : lookupRec ((k, r) :: tl) k = r := by simp [lookupRec]
    rw [hk]
    congr 1
    have hknotin : k ∉ tl.map Prod.fst := (List.nodup_cons.mp hnd).1
    have hcong : ∀ k' ∈ tl.map Prod.fst,
        g k' (lookupRec ((k, r) :: tl) k') = g k' (lookupRec tl k') := by
      intro k' hk'
      have hne : k ≠ k' := fun h => hknotin (h ▸ hk')
      simp [lookupRec, hne]
    calc (tl.map Prod.fst).map (fun k' => g k' (lookupRec ((k, r) :: tl) k'))
        = (tl.map Prod.fst).map (fun k' => g k' (lookupRec tl k')) :=
          List.map_congr_left hcong
      _ = tl.map (fun e => g e.1 e.2) := ih (List.nodup_cons.mp hnd).2

theorem buildResults_100 (pd : List (String × PlateRec)) :
    (buildResults (pd.map (fun e =>
        ({ main_plate := e.1, similar_plates := [],
           all_confidences := e.2.confidences,
           all_frames := e.2.frames } : PlateGroup)))).map restrictRow
      = V2.buildResults pd := by
  rw [buildResults, V2.buildResults, List.filterMap_map, List.map_filterMap]
  congr 1
  funext e
  cases hf : e.2.frames with
  | nil => simp [hf, restrictRow]
  | cons a l => simp [hf, restrictRow]

theorem insertByKey_map {α β : Type} (f : α → β) (keyA : α → ℚ) (keyB : β → ℚ)
    (hk : ∀ x, keyB (f x) = keyA x) (x : α) :
    ∀ l : List α, (insertByKey keyA x l).map f = insertByKey keyB (f x) (l.map f) := by
  intro l
  induction l with
  | nil => rfl
  | cons y ys ih =>
    simp only [insertByKey, List.map_cons, hk]
    split
    · simp
    · simp only [List.map_cons, ih]

theorem sortAscByKey_map {α β : Type} (f : α → β) (keyA : α → ℚ) (keyB : β → ℚ)
    (hk : ∀ x, keyB (f x) = keyA x) :
    ∀ l : List α, (sortAscByKey keyA l).map f = sortAscByKey keyB (l.map f) := by
  intro l
  induction l with
  | nil => rfl
  | cons y ys ih =>
    simp only [sortAscByKey, List.map_cons]
    rw [insertByKey_map f keyA keyB hk, ih]

theorem pandasSortDesc_map {α β : Type} (f : α → β) (keyA : α → ℚ) (keyB : β → ℚ)
    (hk : ∀ x, keyB (f x) = keyA x) (l : List α) :
    (pandasSortDesc keyA l).map f = pandasSortDesc keyB (l.map f) := by
  rw [pandasSortDesc, pandasSortDesc, List.map_reverse,
    sortAscByKey_map f keyA keyB hk]

/-- C10: with threshold 100, grouping returns exactly one cluster per
distinct plate text, with no similar plates and exactly its own confidences
and frames (the ratio metric reaches 100 only on identical strings), so the
grouping variant's rows restricted to the shared columns coincide with the
non-grouping variant's rows. -/
theorem c10_threshold_100_refines_v2 (lines : List String) (src : LogSource) :
    group_similar_plates (aggregate lines) 100 =
      (aggregate lines).map (fun e =>
        { main_plate := e.1, similar_plates := [],
          all_confidences := e.2.confidences, all_frames := e.2.frames })
    ∧ (parse_license_plate_log src 100).map restrictRow
        = V2.parse_license_plate_log src := by
  have hgroup : ∀ ls : List String,
      group_similar_plates (aggregate ls) 100 =
        (aggregate ls).map (fun e =>
          { main_plate := e.1, similar_plates := [],
            all_confidences := e.2.confidences, all_frames := e.2.frames }) := by
    intro ls
    rw [group_similar_plates,
      groupLoop_100 (aggregate ls) ((aggregate ls).map Prod.fst) []
        (aggregate_nodup_keys ls) (fun k _ => List.not_mem_nil k)]
    exact map_keys_lookup
      (fun k r => ({ main_plate := k, similar_plates := [],
                     all_confidences := r.confidences,
                     all_frames := r.frames } : PlateGroup))
      (aggregate ls) (aggregate_nodup_keys ls)
  refine ⟨hgroup lines, ?_⟩
  cases src with
  | notFound => rfl
  | readError l => rfl
  | ok ls =>
    show (pandasSortDesc Row.confidence_level
        (buildResults (group_similar_plates (aggregate ls) 100))).map restrictRow
      = pandasSortDesc RowV2.confidence_level (V2.buildResults (aggregate ls))
    rw [hgroup ls,
      pandasSortDesc_map restrictRow Row.confidence_level RowV2.confidence_level
        (fun r => rfl), buildResults_100]
